import Mathlib

/-!
Verification of the character-sampling pipeline in `train_classifier.py`
(repository `aerjayc/pseudoGT`).

Shallow embedding conventions:
* pixel coordinates and pixel values are rationals (`ℚ`), standing for the
  Python floats;
* a quadrilateral bounding box is four 2-D points, in the order the arrays
  store them;
* ground-truth labels are either a Python string or a non-string value
  (`None` and anything else that fails `isinstance(char, str)`);
* the process-wide NumPy random stream is passed explicitly: a shuffle is an
  index list (the permutation `np.random.shuffle` realises at the current
  state), a perturbation draw is the 8 values returned by the two
  `np.random.uniform(..., size=4)` calls.

Functions from the module `image_proc` are not part of the sources; they are
modelled from the specification (see the doc comments of
`get_containing_rect` and `get_width_height`).
-/

/-- A quadrilateral bounding box: 4 points `(x, y)`, stored in the order
the `N × 4 × 2` ground-truth arrays keep them. -/
structure Quad where
  p0 : ℚ × ℚ
  p1 : ℚ × ℚ
  p2 : ℚ × ℚ
  p3 : ℚ × ℚ
deriving DecidableEq, Repr

/-- A Python ground-truth label: a string, or a non-string value
(`None`, in particular). -/
inductive PyLabel where
  | s (x : String)
  | notStr
deriving DecidableEq, Repr

/-- Python truthiness of a label: `None` (and any non-string) is falsy,
a string is truthy iff it is non-empty.  Used by `if gts[i]:`. -/
def pyTruthy : PyLabel → Bool
  | .s x => !x.isEmpty
  | .notStr => false

/-- Smallest x-coordinate of the four corners. -/
def Quad.minX (q : Quad) : ℚ := min q.p0.1 (min q.p1.1 (min q.p2.1 q.p3.1))

/-- Largest x-coordinate of the four corners. -/
def Quad.maxX (q : Quad) : ℚ := max q.p0.1 (max q.p1.1 (max q.p2.1 q.p3.1))

/-- Smallest y-coordinate of the four corners. -/
def Quad.minY (q : Quad) : ℚ := min q.p0.2 (min q.p1.2 (min q.p2.2 q.p3.2))

/-- Largest y-coordinate of the four corners. -/
def Quad.maxY (q : Quad) : ℚ := max q.p0.2 (max q.p1.2 (max q.p2.2 q.p3.2))

/-- Modelled from the spec: `image_proc.get_containing_rect` (not under
`src/`) returns the axis-aligned rectangle `(tl, tr, br, bl)` whose extent is
`[min x, max x] × [min y, max y]` of the quadrilateral.  Only the top-left
and bottom-right corners are consumed by `filter_BBs`; this definition
returns that pair `(tl, br)`. -/
def get_containing_rect (q : Quad) : (ℚ × ℚ) × (ℚ × ℚ) :=
  ((q.minX, q.minY), (q.maxX, q.maxY))

/-- Coordinate sum `x + y` of a point, the key used to order corners. -/
def ptSum (p : ℚ × ℚ) : ℚ := p.1 + p.2

/-- Pick, among the four corners, the one with the largest coordinate sum;
the earliest corner wins ties. -/
def Quad.brCorner (q : Quad) : ℚ × ℚ :=
  let b0 := q.p0
  let b1 := if ptSum b0 < ptSum q.p1 then q.p1 else b0
  let b2 := if ptSum b1 < ptSum q.p2 then q.p2 else b1
  if ptSum b2 < ptSum q.p3 then q.p3 else b2

/-- Pick, among the four corners, the one with the smallest coordinate sum;
the earliest corner wins ties. -/
def Quad.tlCorner (q : Quad) : ℚ × ℚ :=
  let b0 := q.p0
  let b1 := if ptSum q.p1 < ptSum b0 then q.p1 else b0
  let b2 := if ptSum q.p2 < ptSum b1 then q.p2 else b1
  if ptSum q.p3 < ptSum b2 then q.p3 else b2

/-- Modelled from the spec: `image_proc.get_width_height` (not under `src/`)
returns the difference between the ordered quad's bottom-right and top-left
points, where the top-left is the corner of minimum coordinate sum and the
bottom-right the corner of maximum coordinate sum. -/
def get_width_height (q : Quad) : ℚ × ℚ :=
  ((q.brCorner).1 - (q.tlCorner).1, (q.brCorner).2 - (q.tlCorner).2)

/-- The per-box keep test of `filter_BBs` (lines 266–278), mirroring the
source's two skip branches: skip when the containing rectangle's bottom-right
reaches the image bounds (`br[0] >= img_w or br[1] >= img_h`), else skip when
a dimension is degenerate (`w <= 1 or h <= 1`), else keep. -/
def filter_keep (q : Quad) (img_wh : ℚ × ℚ) : Bool :=
  let r := get_containing_rect q
  let tl := r.1
  let br := r.2
  let w := br.1 - tl.1
  let h := br.2 - tl.2
  if img_wh.1 ≤ br.1 ∨ img_wh.2 ≤ br.2 then false
  else if w ≤ 1 ∨ h ≤ 1 then false
  else true

/-- `filter_BBs` (lines 254–280): drop the (box, label) pairs whose box fails
`filter_keep`, keeping box/label correspondence.  The source walks the two
parallel sequences with one boolean mask; for equal-length inputs (the only
inputs the Python function accepts without an `IndexError`) this equals
filtering the zipped pairs. -/
def filter_BBs (BBs : List Quad) (gts : List PyLabel) (img_wh : ℚ × ℚ) :
    List Quad × List PyLabel :=
  let kept := (BBs.zip gts).filter (fun p => filter_keep p.1 img_wh)
  (kept.map Prod.fst, kept.map Prod.snd)

/-- The keep predicate exactly as claim C4 words it (refinement target, not
source): the containing rectangle's bottom-right corner does not exceed the
image width and height, and the rectangle's width and height are both
strictly greater than 1. -/
def claimKeep (q : Quad) (img_wh : ℚ × ℚ) : Bool :=
  let r := get_containing_rect q
  let tl := r.1
  let br := r.2
  decide (br.1 ≤ img_wh.1) && decide (br.2 ≤ img_wh.2) &&
    decide (1 < br.1 - tl.1) && decide (1 < br.2 - tl.2)

/-- The amended keep predicate: bottom-right strictly below the image width
and height (the source discards boxes that reach the bound exactly), and both
dimensions strictly greater than 1. -/
def strictKeep (q : Quad) (img_wh : ℚ × ℚ) : Bool :=
  let r := get_containing_rect q
  let tl := r.1
  let br := r.2
  decide (br.1 < img_wh.1) && decide (br.2 < img_wh.2) &&
    decide (1 < br.1 - tl.1) && decide (1 < br.2 - tl.2)

/-- One draw of the perturbation noise for one box: the 4 values of
`np.random.uniform(low_x, high_x, size=4)` and the 4 values of
`np.random.uniform(low_y, high_y, size=4)` (lines 339–340). -/
structure Noise where
  nx0 : ℚ
  nx1 : ℚ
  nx2 : ℚ
  nx3 : ℚ
  ny0 : ℚ
  ny1 : ℚ
  ny2 : ℚ
  ny3 : ℚ
deriving DecidableEq, Repr

/-- The draw with all 8 values zero. -/
def Noise.zero : Noise := ⟨0, 0, 0, 0, 0, 0, 0, 0⟩

/-- The range constraint the uniform draws satisfy (lines 337–340): every
horizontal value lies in `[-contract_coeff*w, expand_coeff*w]` and every
vertical value in `[-contract_coeff*h, expand_coeff*h]`, where `(w, h)` is
`get_width_height` of the box being perturbed. -/
def noiseInRange (n : Noise) (contract_coeff expand_coeff w h : ℚ) : Prop :=
  (-(contract_coeff * w) ≤ n.nx0 ∧ n.nx0 ≤ expand_coeff * w) ∧
  (-(contract_coeff * w) ≤ n.nx1 ∧ n.nx1 ≤ expand_coeff * w) ∧
  (-(contract_coeff * w) ≤ n.nx2 ∧ n.nx2 ≤ expand_coeff * w) ∧
  (-(contract_coeff * w) ≤ n.nx3 ∧ n.nx3 ≤ expand_coeff * w) ∧
  (-(contract_coeff * h) ≤ n.ny0 ∧ n.ny0 ≤ expand_coeff * h) ∧
  (-(contract_coeff * h) ≤ n.ny1 ∧ n.ny1 ≤ expand_coeff * h) ∧
  (-(contract_coeff * h) ≤ n.ny2 ∧ n.ny2 ≤ expand_coeff * h) ∧
  (-(contract_coeff * h) ≤ n.ny3 ∧ n.ny3 ≤ expand_coeff * h)

instance (n : Noise) (cc ec w h : ℚ) : Decidable (noiseInRange n cc ec w h) := by
  unfold noiseInRange; infer_instance

/-- The signed noise matrix of lines 341–346: the drawn values arranged as a
4×2 array and multiplied elementwise by `[[-1,-1],[1,-1],[1,1],[-1,1]]`, so
that a positive drawn value moves each corner outward. -/
def Noise.signed (n : Noise) : Quad :=
  ⟨(-n.nx0, -n.ny0), (n.nx1, -n.ny1), (n.nx2, n.ny2), (-n.nx3, n.ny3)⟩

/-- `np.ceil` on a rational, back into `ℚ`. -/
def ceilQ (x : ℚ) : ℚ := (⌈x⌉ : ℤ)

/-- Corner-wise computation of `np.ceil(charBBs[i] + noise) + noise` for one
corner: the source (lines 349–350) first rounds the noised corner up and then
adds the same noise a second time before clipping. -/
def perturbCorner (p s : ℚ × ℚ) : ℚ × ℚ :=
  (ceilQ (p.1 + s.1) + s.1, ceilQ (p.2 + s.2) + s.2)

/-- The perturbed box before the `np.clip` to the image bounds:
`np.ceil(charBBs[i] + noise) + noise`, corner by corner (lines 349–350). -/
def perturb_pre (q : Quad) (n : Noise) : Quad :=
  let s := n.signed
  ⟨perturbCorner q.p0 s.p0, perturbCorner q.p1 s.p1,
   perturbCorner q.p2 s.p2, perturbCorner q.p3 s.p3⟩

/-- `np.clip(x, 0, bound)`. -/
def clipQ (x bound : ℚ) : ℚ := min (max x 0) bound

/-- Clip a corner into `[0, W] × [0, H]` (`np.clip(_, 0, img_wh)` broadcasts
the pair over the last axis). -/
def clipCorner (p : ℚ × ℚ) (img_wh : ℚ × ℚ) : ℚ × ℚ :=
  (clipQ p.1 img_wh.1, clipQ p.2 img_wh.2)

/-- The perturbed box after clipping (line 350). -/
def perturb_clipped (q : Quad) (n : Noise) (img_wh : ℚ × ℚ) : Quad :=
  let pre := perturb_pre q n
  ⟨clipCorner pre.p0 img_wh, clipCorner pre.p1 img_wh,
   clipCorner pre.p2 img_wh, clipCorner pre.p3 img_wh⟩

/-- The body of the perturbation loop of `BB_augment` for one (box, label)
pair (lines 333–355): labels that are falsy (`None`, and also the empty
string) are left untouched; otherwise the box is perturbed and the result is
accepted when the acceptance dimensions exceed 1.  The source computes those
acceptance dimensions as `image_proc.get_width_height(BB)` — of the
*original* box `BB`, not of `new_charBB` (line 353). -/
def BB_augment_one (img_wh : ℚ × ℚ) (q : Quad) (g : PyLabel) (n : Noise) :
    Quad :=
  if pyTruthy g then
    let new_charBB := perturb_clipped q n img_wh
    let nwh := get_width_height q
    if 1 < nwh.1 ∧ 1 < nwh.2 then new_charBB else q
  else q

/-- Apply the perturbation loop to a list of (box, label) pairs, drawing the
`i`-th box's noise from the stream `noise`. -/
def perturbAll (img_wh : ℚ × ℚ) (noise : ℕ → Noise)
    (l : List (Quad × PyLabel)) : List Quad :=
  l.mapIdx fun i p => BB_augment_one img_wh p.1 p.2 (noise i)

/-- The reindexing a NumPy in-place shuffle realises: at a given random-stream
state and a given sequence length, `np.random.shuffle` rearranges the entries
by a fixed index list `p` (a permutation of `range n`); entry `i` of the
result is entry `p[i]` of the input. -/
def applyIdx (p : List ℕ) (l : List α) : List α :=
  p.filterMap fun i => l.get? i

/-- `shuffle_in_unison` (lines 428–433): the random-stream state is saved,
`a` is shuffled, the state is restored and `b` is shuffled.  Because the
state is restored, both in-place shuffles realise the index list the stream
yields at that state; for equal-length inputs it is one and the same list
`p`. -/
def shuffle_in_unison (p : List ℕ) (a : List α) (b : List β) :
    List α × List β :=
  (applyIdx p a, applyIdx p b)

/-- Python `int()` applied to a float: truncation toward zero. -/
def pyInt (q : ℚ) : ℤ := if 0 ≤ q then ⌊q⌋ else -⌊-q⌋

/-- The error raised by the `assert fraction_nonchar < 1` guard of
`BB_augment` (lines 307–308). -/
inductive AugmentError where
  | configError
deriving DecidableEq, Repr

/-- `BB_augment` (lines 295–357).  Randomness is passed explicitly:
`perm1` and `perm2` are the index lists the two possible
`shuffle_in_unison` calls realise, `noise` is the per-box perturbation
stream.  `genNonCharBBs` (lines 359–369) returns `None`, so the
nonchar branch never concatenates negatives and never appends `None`
labels. -/
def BB_augment (charBBs : List Quad) (gts : List PyLabel) (img_wh : ℚ × ℚ)
    (nonchars : Bool) (shuffle : Bool) (batch_size_limit : Option ℤ)
    (fraction_nonchar : ℚ)
    (perm1 perm2 : List ℕ) (noise : ℕ → Noise) :
    Except AugmentError (List Quad × List PyLabel) :=
  let N : ℕ := match batch_size_limit with
    | none => gts.length
    | some b => if b ≤ 0 then gts.length else min gts.length b.toNat
  let bsl : Option ℕ := match batch_size_limit with
    | none => none
    | some b => if b ≤ 0 then none else some b.toNat
  let truncate : List Quad × List PyLabel → List Quad × List PyLabel :=
    fun p => match bsl with
      | none => p
      | some b => (p.1.take b, p.2.take b)
  if nonchars then
    if 1 ≤ fraction_nonchar then .error .configError
    else
      let N_nonchars : ℤ := pyInt (fraction_nonchar * N)
      let k : ℕ := ((N : ℤ) - N_nonchars).toNat
      let s1 := shuffle_in_unison perm1 charBBs gts
      let bbs1 := s1.1.take k
      let gts1 := s1.2.take k
      -- `noncharBBs` is `None`: no concatenation, no sentinel labels added
      let s2 := shuffle_in_unison perm2 bbs1 gts1
      let t := truncate s2
      .ok (perturbAll img_wh noise (t.1.zip t.2), t.2)
  else
    let s := if shuffle then shuffle_in_unison perm1 charBBs gts
             else (charBBs, gts)
    let t := truncate s
    .ok (perturbAll img_wh noise (t.1.zip t.2), t.2)

/-- The pixel rescaling of `SynthCharDataset.__getitem__` (lines 110–113):
`batch /= 255.0; batch -= 0.5; batch *= 2`. -/
def synth_scale_pixel (x : ℚ) : ℚ := (x / 255 - 1 / 2) * 2

/-- The batch leaving `SynthCharDataset.__getitem__`, elementwise. -/
def synth_scale_batch (b : List ℚ) : List ℚ := b.map synth_scale_pixel

/-- The batch leaving `ICDAR2013CharDataset.__getitem__` (lines 244–245):
the accumulated crop values are handed to `torch.from_numpy` with no
rescaling step, so every pixel value is returned unchanged. -/
def icdar_scale_batch (b : List ℚ) : List ℚ := b

/-- Swap the case of one character, as Python `str.swapcase` does on the
ASCII letters the alphabets use. -/
def swapChar (c : Char) : Char :=
  if c.isLower then c.toUpper else if c.isUpper then c.toLower else c

/-- Python `str.swapcase`: swap the case of every character. -/
def swapcase (s : String) : String := String.mk (s.data.map swapChar)

/-- The hard-coded default alphabet string of `string_to_onehot`
(line 377). -/
def defaultAlphabetStr : String := "AaBbCDdEeFfGgHhIiJjKLlMmNnOPQqRrSTtUVWXYZ"

/-- The default alphabet as the list of one-character strings Python's
iteration over the string produces. -/
def defaultAlphabet : List (Option String) :=
  defaultAlphabetStr.data.map fun c => some (String.mk [c])

/-- The module-level `ALPHABET` (line 26):
`list("AaBbCDdEeFfGgHhIiJjKLlMmNnOPQqRrSTtUVWXYZ") + [None]`. -/
def ALPHABET : List (Option String) := defaultAlphabet ++ [none]

/-- The insertion-ordered (key, value) pairs of
`dict((c, i) for i, c in enumerate(alphabet))`, keys paired with their
positions starting at `n`. -/
def char_to_int_base : List (Option String) → ℕ → List (Option String × ℕ)
  | [], _ => []
  | c :: rest, n => (c, n) :: char_to_int_base rest (n + 1)

/-- Python dict lookup over insertion-ordered pairs: a later insertion of the
same key overwrites an earlier one, so the value is the last matching pair's;
`none` models a `KeyError`. -/
def dictGet (m : List (Option String × ℕ)) (k : Option String) : Option ℕ :=
  ((m.filter fun p => decide (p.1 = k)).getLast?).map Prod.snd

/-- The `char_to_int` mapping `string_to_onehot` builds (lines 375–381):
each alphabet entry maps to its position (later duplicates overwrite), and
when `include_nonchar` holds and `None` is not already a key, `None` maps to
the number of distinct keys (`len(char_to_int)`). -/
def char_to_int (alphabet : List (Option String)) (include_nonchar : Bool) :
    List (Option String × ℕ) :=
  let base := char_to_int_base alphabet 0
  if include_nonchar && decide (none ∉ alphabet) then
    base ++ [(none, alphabet.dedup.length)]
  else base

/-- The per-label normalisation of lines 386–392: a non-string becomes
`None`; a string absent from the alphabet is case-swapped; a string still
absent becomes `None`. -/
def resolveLabel (alphabet : List (Option String)) (x : PyLabel) :
    Option String :=
  match x with
  | .notStr => none
  | .s s =>
      if some s ∈ alphabet then some s
      else if some (swapcase s) ∈ alphabet then some (swapcase s)
      else none

/-- `string_to_onehot` (lines 372–405) restricted to its index output
(`to_onehot=False`), which is what both dataset pipelines request.  A falsy
(empty) `alphabet` argument is replaced by the default alphabet (line 376);
each label is normalised and looked up in `char_to_int`.  An entry `none`
models the `KeyError` that a missing key would raise. -/
def string_to_onehot (labels : List PyLabel)
    (alphabet : List (Option String)) (include_nonchar : Bool) :
    List (Option ℕ) :=
  let alpha := if alphabet.isEmpty then defaultAlphabet else alphabet
  let m := char_to_int alpha include_nonchar
  labels.map fun x => dictGet m (resolveLabel alpha x)

/-- Position of the first occurrence of `k` in a list (list length when
absent); the positional index the claim about the encoder speaks of. -/
def posIn (k : Option String) : List (Option String) → ℕ
  | [] => 0
  | c :: rest => if c = k then 0 else posIn k rest + 1

/-- The sentinel index as claim C8 describes it: the position of the sentinel
when it is already in the alphabet, one past the last alphabet position
otherwise. -/
def sentinel_index (alphabet : List (Option String)) : ℕ :=
  if none ∈ alphabet then posIn none alphabet else alphabet.length

/-- The index claim C8 predicts for one input label. -/
def claimIndex (alphabet : List (Option String)) (x : PyLabel) : ℕ :=
  match x with
  | .notStr => sentinel_index alphabet
  | .s s =>
      if some s ∈ alphabet then posIn (some s) alphabet
      else if some (swapcase s) ∈ alphabet then posIn (some (swapcase s)) alphabet
      else sentinel_index alphabet

/-- One character step of `genBalancedCharDataset`'s inner loop
(lines 459–478): characters outside the tracked classes are skipped,
characters whose class already reached `N_max` are skipped, otherwise the
crop is written and the class count is incremented.  The file-system effects
(path printing, directory creation, `skip_existing` checks against a fresh
output directory, image writing) do not alter the distribution. -/
def processChar (N_max : ℕ) (tracked : List Char) (dist : Char → ℕ)
    (c : Char) : Char → ℕ :=
  if c ∈ tracked ∧ dist c < N_max then
    fun x => if x = c then dist c + 1 else dist x
  else dist

/-- One image record of the balanced-extraction loop: fold the character
step over the record's character string. -/
def processRecord (N_max : ℕ) (tracked : List Char) (dist : Char → ℕ)
    (r : List Char) : Char → ℕ :=
  r.foldl (processChar N_max tracked) dist

/-- `genBalancedCharDataset` (lines 435–480), distribution component: the
corpus is visited in the order of the random sample (a permutation of all
image indices, hence a finite list); before each record the loop stops if
every tracked class has reached `N_max`
(`min(distribution.values()) >= N_max`). -/
def genBalancedCharDataset (N_max : ℕ) (tracked : List Char)
    (corpus : List (List Char)) (dist : Char → ℕ) : Char → ℕ :=
  match corpus with
  | [] => dist
  | r :: rest =>
      if tracked.all (fun c => decide (N_max ≤ dist c)) then dist
      else genBalancedCharDataset N_max tracked rest
        (processRecord N_max tracked dist r)

/-- Number of occurrences of class `c` across the whole corpus. -/
def countJoin (c : Char) (corpus : List (List Char)) : ℕ :=
  (corpus.map fun r => r.count c).sum

/-! ## Concrete example inputs

Fixtures used by concrete instantiations below: a 10×5 box whose containing
rectangle touches the right image bound of a 10×10 image exactly, and a 6×6
box well inside it. -/

/-- Box with corners `(0,0)`–`(10,5)`: bottom-right touches `W = 10`. -/
def exBoxEdge : Quad := ⟨(0, 0), (10, 0), (10, 5), (0, 5)⟩

/-- Box with corners `(2,2)`–`(8,8)`: strictly inside a 10×10 image. -/
def exBoxMid : Quad := ⟨(2, 2), (8, 2), (8, 8), (2, 8)⟩

/-- Example box list. -/
def exBBs : List Quad := [exBoxEdge, exBoxMid]

/-- Example label list. -/
def exGts : List PyLabel := [.s "A", .s "B"]

/-! ## Helper lemmas -/

theorem filter_keep_eq_strictKeep (q : Quad) (wh : ℚ × ℚ) :
    filter_keep q wh = strictKeep q wh := by
  unfold filter_keep strictKeep
  dsimp only
  split_ifs with hA hB
  · rcases hA with h | h <;> simp [not_lt.mpr h]
  · rcases hB with h | h <;> simp [not_lt.mpr h]
  · rw [not_or] at hA hB
    push_neg at hA hB
    simp [hA.1, hA.2, hB.1, hB.2]

theorem filter_BBs_zip (BBs : List Quad) (gts : List PyLabel) (wh : ℚ × ℚ) :
    (filter_BBs BBs gts wh).1.zip (filter_BBs BBs gts wh).2 =
      (BBs.zip gts).filter fun p => filter_keep p.1 wh := by
  simp [filter_BBs, List.zip_map']

theorem zip_filter_map_fst (BBs : List Quad) (gts : List PyLabel)
    (f : Quad → Bool) (h : BBs.length = gts.length) :
    (((BBs.zip gts).filter fun p => f p.1).map Prod.fst) = BBs.filter f := by
  induction BBs generalizing gts with
  | nil => simp
  | cons q qs ih =>
    cases gts with
    | nil => simp at h
    | cons g gs =>
      simp only [List.length_cons, Nat.succ_inj] at h
      by_cases hf : f q
      · simp [List.filter_cons, hf, ih gs h]
      · simp [List.filter_cons, hf, ih gs h]

/-! ## Claim theorems: the bounding-box filter (C4, C7, C10) -/

/-- C4, counterexample: with a 10×10 image, the rectangle with bottom-right
corner `(10, 5)` touches the image width exactly — it *does not exceed* it —
and its dimensions are 10×5 > 1, so the claim says the pair is kept; the code
discards it, because the source drops boxes with `br[0] >= img_w`. -/
theorem C4_counterexample :
    claimKeep ⟨(0, 0), (10, 0), (10, 5), (0, 5)⟩ (10, 10) = true ∧
    filter_BBs [⟨(0, 0), (10, 0), (10, 5), (0, 5)⟩] [.s "A"] (10, 10) =
      ([], []) := by
  constructor
  · simp only [claimKeep, get_containing_rect, Quad.minX, Quad.maxX, Quad.minY,
      Quad.maxY]
    norm_num
  · simp only [filter_BBs, filter_keep, get_containing_rect, Quad.minX,
      Quad.maxX, Quad.minY, Quad.maxY, List.zip_cons_cons, List.zip_nil_right,
      List.filter_cons, List.filter_nil]
    norm_num

/-- C4, amended: `filter_BBs` keeps exactly those (box, label) pairs whose
containing rectangle's bottom-right corner is *strictly below* the image
width and height and whose width and height are both strictly greater
than 1, preserving the relative order of the kept pairs. -/
theorem filter_BBs_keeps_exactly_strict (BBs : List Quad)
    (gts : List PyLabel) (wh : ℚ × ℚ) (h : BBs.length = gts.length) :
    (filter_BBs BBs gts wh).1.zip (filter_BBs BBs gts wh).2 =
      (BBs.zip gts).filter (fun p => strictKeep p.1 wh) ∧
    (filter_BBs BBs gts wh).1 = BBs.filter (fun q => strictKeep q wh) := by
  have hz : (filter_BBs BBs gts wh).1.zip (filter_BBs BBs gts wh).2 =
      (BBs.zip gts).filter (fun p => strictKeep p.1 wh) := by
    rw [filter_BBs_zip]
    exact List.filter_congr fun p _ => filter_keep_eq_strictKeep p.1 wh
  refine ⟨hz, ?_⟩
  have h1 : (filter_BBs BBs gts wh).1 =
      (((BBs.zip gts).filter fun p => strictKeep p.1 wh).map Prod.fst) := by
    show (((BBs.zip gts).filter fun p => filter_keep p.1 wh).map Prod.fst) = _
    rw [List.filter_congr fun p _ => filter_keep_eq_strictKeep p.1 wh]
  exact h1.trans (zip_filter_map_fst BBs gts (fun q => strictKeep q wh) h)

theorem C4_amended_witness :
    (filter_BBs exBBs exGts (10, 10)).1.zip (filter_BBs exBBs exGts (10, 10)).2 =
      (exBBs.zip exGts).filter (fun p => strictKeep p.1 (10, 10)) ∧
    (filter_BBs exBBs exGts (10, 10)).1 =
      exBBs.filter (fun q => strictKeep q (10, 10)) :=
  filter_BBs_keeps_exactly_strict exBBs exGts (10, 10) (by decide)

/-- C7: `filter_BBs` is idempotent — filtering its own output with the same
image dimensions returns that output unchanged. -/
theorem filter_BBs_idempotent (BBs : List Quad) (gts : List PyLabel)
    (wh : ℚ × ℚ) (_h : BBs.length = gts.length) :
    filter_BBs (filter_BBs BBs gts wh).1 (filter_BBs BBs gts wh).2 wh =
      filter_BBs BBs gts wh := by
  unfold filter_BBs
  dsimp only
  rw [List.zip_map']
  have hmap : (((BBs.zip gts).filter fun p => filter_keep p.1 wh).map
      fun p => (p.1, p.2)) =
      (BBs.zip gts).filter fun p => filter_keep p.1 wh := by
    simp
  rw [hmap]
  have hself : ((BBs.zip gts).filter fun p => filter_keep p.1 wh).filter
      (fun p => filter_keep p.1 wh) =
      (BBs.zip gts).filter fun p => filter_keep p.1 wh :=
    List.filter_eq_self.mpr fun a ha => (List.mem_filter.mp ha).2
  rw [hself]

theorem C7_witness :
    filter_BBs (filter_BBs exBBs exGts (10, 10)).1
        (filter_BBs exBBs exGts (10, 10)).2 (10, 10) =
      filter_BBs exBBs exGts (10, 10) :=
  filter_BBs_idempotent exBBs exGts (10, 10) (by decide)

/-- C10: for equal-length inputs, `filter_BBs` returns equally many boxes and
labels, and the returned pair sequence is a sublist of the input pair
sequence, so the `i`-th returned label is the label originally paired with
the `i`-th returned box. -/
theorem filter_BBs_pairing (BBs : List Quad) (gts : List PyLabel)
    (wh : ℚ × ℚ) (_h : BBs.length = gts.length) :
    (filter_BBs BBs gts wh).1.length = (filter_BBs BBs gts wh).2.length ∧
    List.Sublist ((filter_BBs BBs gts wh).1.zip (filter_BBs BBs gts wh).2)
      (BBs.zip gts) := by
  constructor
  · simp [filter_BBs]
  · rw [filter_BBs_zip]
    exact List.filter_sublist _

/-! ## Claim theorems: joint shuffle (C6) -/

theorem get?_zip {α β : Type} (a : List α) (b : List β) (i : ℕ) :
    (a.zip b).get? i =
      (a.get? i).bind fun x => (b.get? i).map fun y => (x, y) := by
  induction a generalizing b i with
  | nil => simp
  | cons x xs ih =>
    cases b with
    | nil => cases (x :: xs).get? i <;> simp
    | cons y ys =>
      cases i with
      | zero => simp
      | succ j => simpa using ih ys j

theorem applyIdx_zip {α β : Type} (p : List ℕ) (a : List α) (b : List β)
    (h : a.length = b.length) :
    applyIdx p (a.zip b) = (applyIdx p a).zip (applyIdx p b) := by
  induction p with
  | nil => rfl
  | cons i p ih =>
    simp only [applyIdx] at ih ⊢
    cases ha : a.get? i with
    | none =>
      have hb : b.get? i = none := by
        rw [List.get?_eq_none] at ha ⊢
        omega
      have hz : (a.zip b).get? i = none := by
        rw [get?_zip, ha]
        rfl
      rw [List.filterMap_cons_none hz, List.filterMap_cons_none ha,
        List.filterMap_cons_none hb]
      exact ih
    | some x =>
      have hi : i < a.length := by
        by_contra hge
        rw [List.get?_eq_none.mpr (by omega)] at ha
        exact Option.noConfusion ha
      have hb : b.get? i = some (b.get ⟨i, by omega⟩) :=
        List.get?_eq_get (by omega)
      have hz : (a.zip b).get? i = some (x, b.get ⟨i, by omega⟩) := by
        rw [get?_zip, ha, hb]
        rfl
      rw [List.filterMap_cons_some hz, List.filterMap_cons_some ha,
        List.filterMap_cons_some hb, List.zip_cons_cons, ih]

theorem applyIdx_range {α : Type} (l : List α) :
    applyIdx (List.range l.length) l = l := by
  induction l with
  | nil => rfl
  | cons x xs ih =>
    rw [List.length_cons, List.range_succ_eq_map]
    simp only [applyIdx] at ih ⊢
    have h0 : (fun i => (x :: xs).get? i) 0 = some x := rfl
    rw [List.filterMap_cons_some h0, List.filterMap_map]
    have hcomp : ((fun i => (x :: xs).get? i) ∘ Nat.succ) =
        fun i => xs.get? i := by
      funext i
      simp
    rw [hcomp, ih]

theorem applyIdx_perm {α : Type} (p : List ℕ) (l : List α)
    (hp : p.Perm (List.range l.length)) : (applyIdx p l).Perm l := by
  have h := hp.filterMap fun i => l.get? i
  rw [show (List.range l.length).filterMap (fun i => l.get? i) = l from
    applyIdx_range l] at h
  exact h

/-- C6: for equal-length box and label sequences and any permutation the
random stream realises, `shuffle_in_unison` applies that one permutation to
both sequences: the output pair sequence is a permutation of the input pair
sequence, so every original (box, label) pair still exists, paired, in the
output. -/
theorem shuffle_in_unison_pairing {α β : Type} (p : List ℕ) (a : List α)
    (b : List β) (hlen : a.length = b.length)
    (hp : p.Perm (List.range a.length)) :
    ((shuffle_in_unison p a b).1.zip (shuffle_in_unison p a b).2).Perm
      (a.zip b) ∧
    ∀ x ∈ a.zip b,
      x ∈ (shuffle_in_unison p a b).1.zip (shuffle_in_unison p a b).2 := by
  have hz : (shuffle_in_unison p a b).1.zip (shuffle_in_unison p a b).2 =
      applyIdx p (a.zip b) := (applyIdx_zip p a b hlen).symm
  have hperm : (applyIdx p (a.zip b)).Perm (a.zip b) := by
    apply applyIdx_perm
    rwa [List.length_zip, ← hlen, min_self]
  rw [hz]
  exact ⟨hperm, fun x hx => hperm.mem_iff.mpr hx⟩

theorem C6_witness :
    ((shuffle_in_unison [1, 0] [10, 20] [30, 40]).1.zip
      (shuffle_in_unison [1, 0] [10, 20] [30, 40]).2).Perm
      ([10, 20].zip [30, 40]) :=
  (shuffle_in_unison_pairing [1, 0] [(10 : ℕ), 20] [(30 : ℕ), 40] rfl
    (by decide)).1

/-! ## Claim theorems: perturbation (C1, C3), pixel range (C2),
configuration guard (C5) -/

theorem ceilQ_bounds (y : ℚ) : y ≤ ceilQ y ∧ ceilQ y ≤ y + 1 := by
  constructor
  · exact_mod_cast Int.le_ceil y
  · have h := Int.ceil_lt_add_one y
    exact le_of_lt (by exact_mod_cast h)

/-- C1, counterexample: a 10×10 box perturbed with drawn values inside the
`[-0.2·dim, 0.2·dim]` range grows in width by 4 > 0.2·10 before clamping:
the source adds the drawn noise both before and after the ceiling
(`np.ceil(charBBs[i] + noise) + noise`), so the bottom-right corner moves by
twice the drawn value plus round-up, not by one drawn value. -/
theorem C1_counterexample :
    noiseInRange ⟨0, 0, 2, 0, 0, 0, 2, 0⟩ (1/5) (1/5)
      (get_width_height ⟨(0, 0), (10, 0), (10, 10), (0, 10)⟩).1
      (get_width_height ⟨(0, 0), (10, 0), (10, 10), (0, 10)⟩).2 ∧
    (1/5 : ℚ) * (get_width_height ⟨(0, 0), (10, 0), (10, 10), (0, 10)⟩).1 <
      (get_width_height
        (perturb_pre ⟨(0, 0), (10, 0), (10, 10), (0, 10)⟩ ⟨0, 0, 2, 0, 0, 0, 2, 0⟩)).1 -
      (get_width_height ⟨(0, 0), (10, 0), (10, 10), (0, 10)⟩).1 := by
  constructor
  · norm_num [noiseInRange, get_width_height, Quad.brCorner, Quad.tlCorner,
      ptSum]
  · norm_num [get_width_height, perturb_pre, perturbCorner, Noise.signed,
      ceilQ, Quad.brCorner, Quad.tlCorner, ptSum]

/-- C1, amended: before clamping, each corner coordinate of the perturbed box
equals the original plus *twice* the drawn signed value plus a round-up
excess in `[0, 1)`: in the outward direction every corner moves by at least
`-(2·contract_coeff·dim + 1)` and at most `2·expand_coeff·dim + 1`, where
`dim` is the box's width for horizontal moves and height for vertical
moves. -/
theorem BB_augment_perturb_move_bounds (q : Quad) (n : Noise) (cc ec : ℚ)
    (h : noiseInRange n cc ec (get_width_height q).1 (get_width_height q).2) :
    (-(2 * cc * (get_width_height q).1 + 1) ≤ q.p0.1 - (perturb_pre q n).p0.1 ∧
      q.p0.1 - (perturb_pre q n).p0.1 ≤ 2 * ec * (get_width_height q).1 + 1) ∧
    (-(2 * cc * (get_width_height q).2 + 1) ≤ q.p0.2 - (perturb_pre q n).p0.2 ∧
      q.p0.2 - (perturb_pre q n).p0.2 ≤ 2 * ec * (get_width_height q).2 + 1) ∧
    (-(2 * cc * (get_width_height q).1 + 1) ≤ (perturb_pre q n).p1.1 - q.p1.1 ∧
      (perturb_pre q n).p1.1 - q.p1.1 ≤ 2 * ec * (get_width_height q).1 + 1) ∧
    (-(2 * cc * (get_width_height q).2 + 1) ≤ q.p1.2 - (perturb_pre q n).p1.2 ∧
      q.p1.2 - (perturb_pre q n).p1.2 ≤ 2 * ec * (get_width_height q).2 + 1) ∧
    (-(2 * cc * (get_width_height q).1 + 1) ≤ (perturb_pre q n).p2.1 - q.p2.1 ∧
      (perturb_pre q n).p2.1 - q.p2.1 ≤ 2 * ec * (get_width_height q).1 + 1) ∧
    (-(2 * cc * (get_width_height q).2 + 1) ≤ (perturb_pre q n).p2.2 - q.p2.2 ∧
      (perturb_pre q n).p2.2 - q.p2.2 ≤ 2 * ec * (get_width_height q).2 + 1) ∧
    (-(2 * cc * (get_width_height q).1 + 1) ≤ q.p3.1 - (perturb_pre q n).p3.1 ∧
      q.p3.1 - (perturb_pre q n).p3.1 ≤ 2 * ec * (get_width_height q).1 + 1) ∧
    (-(2 * cc * (get_width_height q).2 + 1) ≤ (perturb_pre q n).p3.2 - q.p3.2 ∧
      (perturb_pre q n).p3.2 - q.p3.2 ≤ 2 * ec * (get_width_height q).2 + 1) := by
  obtain ⟨⟨a0, b0⟩, ⟨a1, b1⟩, ⟨a2, b2⟩, ⟨a3, b3⟩,
    ⟨c0, d0⟩, ⟨c1, d1⟩, ⟨c2, d2⟩, ⟨c3, d3⟩⟩ := h
  simp only [perturb_pre, perturbCorner, Noise.signed]
  have e0 := ceilQ_bounds (q.p0.1 + -n.nx0)
  have e1 := ceilQ_bounds (q.p0.2 + -n.ny0)
  have e2 := ceilQ_bounds (q.p1.1 + n.nx1)
  have e3 := ceilQ_bounds (q.p1.2 + -n.ny1)
  have e4 := ceilQ_bounds (q.p2.1 + n.nx2)
  have e5 := ceilQ_bounds (q.p2.2 + n.ny2)
  have e6 := ceilQ_bounds (q.p3.1 + -n.nx3)
  have e7 := ceilQ_bounds (q.p3.2 + n.ny3)
  refine ⟨⟨?_, ?_⟩, ⟨?_, ?_⟩, ⟨?_, ?_⟩, ⟨?_, ?_⟩,
    ⟨?_, ?_⟩, ⟨?_, ?_⟩, ⟨?_, ?_⟩, ⟨?_, ?_⟩⟩ <;>
    linarith [e0.1, e0.2, e1.1, e1.2, e2.1, e2.2, e3.1, e3.2,
      e4.1, e4.2, e5.1, e5.2, e6.1, e6.2, e7.1, e7.2]

theorem C1_amended_witness :
    (-(2 * 0 * (get_width_height exBoxMid).1 + 1) ≤
        exBoxMid.p0.1 - (perturb_pre exBoxMid Noise.zero).p0.1 ∧
      exBoxMid.p0.1 - (perturb_pre exBoxMid Noise.zero).p0.1 ≤
        2 * 0 * (get_width_height exBoxMid).1 + 1) ∧
    (-(2 * 0 * (get_width_height exBoxMid).2 + 1) ≤
        exBoxMid.p0.2 - (perturb_pre exBoxMid Noise.zero).p0.2 ∧
      exBoxMid.p0.2 - (perturb_pre exBoxMid Noise.zero).p0.2 ≤
        2 * 0 * (get_width_height exBoxMid).2 + 1) ∧
    (-(2 * 0 * (get_width_height exBoxMid).1 + 1) ≤
        (perturb_pre exBoxMid Noise.zero).p1.1 - exBoxMid.p1.1 ∧
      (perturb_pre exBoxMid Noise.zero).p1.1 - exBoxMid.p1.1 ≤
        2 * 0 * (get_width_height exBoxMid).1 + 1) ∧
    (-(2 * 0 * (get_width_height exBoxMid).2 + 1) ≤
        exBoxMid.p1.2 - (perturb_pre exBoxMid Noise.zero).p1.2 ∧
      exBoxMid.p1.2 - (perturb_pre exBoxMid Noise.zero).p1.2 ≤
        2 * 0 * (get_width_height exBoxMid).2 + 1) ∧
    (-(2 * 0 * (get_width_height exBoxMid).1 + 1) ≤
        (perturb_pre exBoxMid Noise.zero).p2.1 - exBoxMid.p2.1 ∧
      (perturb_pre exBoxMid Noise.zero).p2.1 - exBoxMid.p2.1 ≤
        2 * 0 * (get_width_height exBoxMid).1 + 1) ∧
    (-(2 * 0 * (get_width_height exBoxMid).2 + 1) ≤
        (perturb_pre exBoxMid Noise.zero).p2.2 - exBoxMid.p2.2 ∧
      (perturb_pre exBoxMid Noise.zero).p2.2 - exBoxMid.p2.2 ≤
        2 * 0 * (get_width_height exBoxMid).2 + 1) ∧
    (-(2 * 0 * (get_width_height exBoxMid).1 + 1) ≤
        exBoxMid.p3.1 - (perturb_pre exBoxMid Noise.zero).p3.1 ∧
      exBoxMid.p3.1 - (perturb_pre exBoxMid Noise.zero).p3.1 ≤
        2 * 0 * (get_width_height exBoxMid).1 + 1) ∧
    (-(2 * 0 * (get_width_height exBoxMid).2 + 1) ≤
        (perturb_pre exBoxMid Noise.zero).p3.2 - exBoxMid.p3.2 ∧
      (perturb_pre exBoxMid Noise.zero).p3.2 - exBoxMid.p3.2 ≤
        2 * 0 * (get_width_height exBoxMid).2 + 1) :=
  BB_augment_perturb_move_bounds exBoxMid Noise.zero 0 0
    (by norm_num [noiseInRange, Noise.zero])

/-- C3: at this input the original box has both dimensions `10 > 1`, every
drawn value lies inside the `±0.5·dim` range, yet the loop of `BB_augment`
replaces the box by a perturbed box of width `0 ≤ 1`: line 353 measures
`get_width_height(BB)` — the original box — so the acceptance test the
claim (and the source's own comment) describes never inspects the perturbed
box. -/
theorem C3_failing_input_eval :
    noiseInRange ⟨-2, 0, -3, 0, 0, -(1/5), 1, 1/2⟩ (1/2) (1/2)
      (get_width_height ⟨(20, 0), (30, 0), (30, 10), (20, 10)⟩).1
      (get_width_height ⟨(20, 0), (30, 0), (30, 10), (20, 10)⟩).2 ∧
    1 < (get_width_height ⟨(20, 0), (30, 0), (30, 10), (20, 10)⟩).1 ∧
    1 < (get_width_height ⟨(20, 0), (30, 0), (30, 10), (20, 10)⟩).2 ∧
    BB_augment_one (100, 100) ⟨(20, 0), (30, 0), (30, 10), (20, 10)⟩ (.s "A")
        ⟨-2, 0, -3, 0, 0, -(1/5), 1, 1/2⟩ =
      ⟨(24, 0), (30, 6/5), (24, 12), (20, 23/2)⟩ ∧
    (get_width_height (⟨(24, 0), (30, 6/5), (24, 12), (20, 23/2)⟩ : Quad)).1 ≤ 1 := by
  have hc1 : ⌈(1/5 : ℚ)⌉ = 1 := Int.ceil_eq_iff.mpr ⟨by norm_num, by norm_num⟩
  have hc2 : ⌈(21/2 : ℚ)⌉ = 11 := Int.ceil_eq_iff.mpr ⟨by norm_num, by norm_num⟩
  have hA : "A".isEmpty = false := by decide
  refine ⟨?_, ?_, ?_, ?_, ?_⟩
  · norm_num [noiseInRange, get_width_height, Quad.brCorner, Quad.tlCorner,
      ptSum]
  · norm_num [get_width_height, Quad.brCorner, Quad.tlCorner, ptSum]
  · norm_num [get_width_height, Quad.brCorner, Quad.tlCorner, ptSum]
  · norm_num [BB_augment_one, pyTruthy, get_width_height, Quad.brCorner,
      Quad.tlCorner, ptSum, perturb_clipped, perturb_pre, perturbCorner,
      Noise.signed, ceilQ, clipCorner, clipQ, hc1, hc2, hA]
  · norm_num [get_width_height, Quad.brCorner, Quad.tlCorner, ptSum]

/-- C2, counterexample: `ICDAR2013CharDataset.__getitem__` returns the
accumulated crop values unrescaled, so a source pixel of value 255 leaves the
pipeline as 255, which is not in `[-1, 1]`. -/
theorem C2_counterexample :
    icdar_scale_batch [(255 : ℚ)] = [(255 : ℚ)] ∧ ¬((255 : ℚ) ≤ 1) :=
  ⟨rfl, by norm_num⟩

/-- C2, amended: for source pixel values in `[0, 255]`,
`SynthCharDataset.__getitem__` returns pixel values in `[-1, 1]`, while
`ICDAR2013CharDataset.__getitem__` performs no rescaling and returns the
values unchanged in `[0, 255]`. -/
theorem pixel_scale_amended (b : List ℚ) (h : ∀ x ∈ b, 0 ≤ x ∧ x ≤ 255) :
    (∀ y ∈ synth_scale_batch b, -1 ≤ y ∧ y ≤ 1) ∧
    (∀ y ∈ icdar_scale_batch b, 0 ≤ y ∧ y ≤ 255) := by
  constructor
  · intro y hy
    simp only [synth_scale_batch, List.mem_map] at hy
    obtain ⟨x, hx, rfl⟩ := hy
    obtain ⟨h0, h1⟩ := h x hx
    unfold synth_scale_pixel
    constructor <;> linarith
  · intro y hy
    exact h y hy

theorem C2_amended_witness :
    -1 ≤ synth_scale_pixel 255 ∧ synth_scale_pixel 255 ≤ 1 :=
  (pixel_scale_amended [0, 255] (by norm_num)).1 (synth_scale_pixel 255)
    (List.mem_map_of_mem synth_scale_pixel (by norm_num))

/-- C5, counterexample: `BB_augment` invoked with
`fraction_nonchar = 2 ≥ 1` but `nonchars = False` (the default of both
dataset pipelines) raises no error at all — it shuffles, truncates and
perturbs normally — because the `assert fraction_nonchar < 1` guard sits
inside the `if nonchars:` branch. -/
theorem C5_counterexample :
    (1 : ℚ) ≤ 2 ∧
    BB_augment [exBoxMid] [.notStr] (100, 100) false false none 2 [] []
        (fun _ => Noise.zero) =
      .ok ([exBoxMid], [.notStr]) :=
  ⟨by norm_num, rfl⟩

/-- C5, amended: whenever `BB_augment` is invoked with `nonchars = True` and
`fraction_nonchar ≥ 1`, it fails with the configuration error before any
shuffling, truncation or perturbation — the result is the error for every
random stream, and no output boxes or labels are produced. -/
theorem BB_augment_config_error (charBBs : List Quad) (gts : List PyLabel)
    (img_wh : ℚ × ℚ) (shuffle : Bool) (bsl : Option ℤ) (fraction : ℚ)
    (perm1 perm2 : List ℕ) (noise : ℕ → Noise) (h : 1 ≤ fraction) :
    BB_augment charBBs gts img_wh true shuffle bsl fraction perm1 perm2
      noise = .error .configError := by
  simp [BB_augment, h]

theorem C5_amended_witness :
    BB_augment [exBoxMid] [.s "A"] (100, 100) true false none 2 [] []
        (fun _ => Noise.zero) = .error .configError :=
  BB_augment_config_error [exBoxMid] [.s "A"] (100, 100) false none 2 [] []
    (fun _ => Noise.zero) (by norm_num)

theorem C10_witness :
    (filter_BBs exBBs exGts (10, 10)).1.length =
      (filter_BBs exBBs exGts (10, 10)).2.length ∧
    List.Sublist
      ((filter_BBs exBBs exGts (10, 10)).1.zip
        (filter_BBs exBBs exGts (10, 10)).2)
      (exBBs.zip exGts) :=
  filter_BBs_pairing exBBs exGts (10, 10) (by decide)

/-! ## Claim theorems: the label encoder (C8) -/

theorem char_to_int_base_filter_not_mem (l : List (Option String)) (n : ℕ)
    (k : Option String) (hk : k ∉ l) :
    (char_to_int_base l n).filter (fun p => decide (p.1 = k)) = [] := by
  induction l generalizing n with
  | nil => rfl
  | cons c rest ih =>
    simp only [char_to_int_base, List.filter_cons]
    have hck : ¬(c = k) := fun e => hk (e ▸ List.mem_cons_self c rest)
    rw [if_neg (by simp [hck])]
    exact ih (n + 1) fun hm => hk (List.mem_cons_of_mem c hm)

theorem char_to_int_base_filter_mem (l : List (Option String)) (n : ℕ)
    (k : Option String) (hnd : l.Nodup) (hk : k ∈ l) :
    (char_to_int_base l n).filter (fun p => decide (p.1 = k)) =
      [(k, n + posIn k l)] := by
  induction l generalizing n with
  | nil => cases hk
  | cons c rest ih =>
    obtain ⟨hc, hrest⟩ := List.nodup_cons.mp hnd
    simp only [char_to_int_base, List.filter_cons, posIn]
    by_cases e : c = k
    · subst e
      rw [if_pos (by simp), if_pos rfl,
        char_to_int_base_filter_not_mem rest (n + 1) c hc]
      simp
    · have hkr : k ∈ rest := by
        rcases List.mem_cons.mp hk with h | h
        · exact absurd h.symm e
        · exact h
      rw [if_neg (by simp [e]), if_neg e, ih (n + 1) hrest hkr]
      have harith : n + 1 + posIn k rest = n + (posIn k rest + 1) := by omega
      rw [harith]

theorem dictGet_char_to_int_mem (alphabet : List (Option String))
    (inc : Bool) (k : Option String) (hnd : alphabet.Nodup)
    (hk : k ∈ alphabet) :
    dictGet (char_to_int alphabet inc) k = some (posIn k alphabet) := by
  unfold dictGet char_to_int
  by_cases hn : inc && decide (none ∉ alphabet)
  · rw [if_pos hn, List.filter_append,
      char_to_int_base_filter_mem alphabet 0 k hnd hk]
    have hn2 : (none : Option String) ∉ alphabet := by
      have h2 := hn
      simp only [Bool.and_eq_true, decide_eq_true_eq] at h2
      exact h2.2
    have hknone : ¬((none : Option String) = k) := fun e => hn2 (e ▸ hk)
    simp [hknone]
  · rw [if_neg hn, char_to_int_base_filter_mem alphabet 0 k hnd hk]
    simp

theorem dictGet_char_to_int_no_sentinel (alphabet : List (Option String))
    (hn : (none : Option String) ∉ alphabet) :
    dictGet (char_to_int alphabet true) none =
      some alphabet.dedup.length := by
  unfold dictGet char_to_int
  rw [if_pos (by simp [hn]), List.filter_append,
    char_to_int_base_filter_not_mem alphabet 0 none hn]
  simp

theorem dictGet_sentinel (alphabet : List (Option String))
    (hnd : alphabet.Nodup) :
    dictGet (char_to_int alphabet true) none =
      some (sentinel_index alphabet) := by
  by_cases hn : (none : Option String) ∈ alphabet
  · rw [dictGet_char_to_int_mem alphabet true none hnd hn]
    simp [sentinel_index, hn]
  · rw [dictGet_char_to_int_no_sentinel alphabet hn]
    simp [sentinel_index, hn, List.Nodup.dedup hnd]

/-- C8: with sentinel support on (both pipelines use the default
`include_nonchar=True`) and a duplicate-free, non-empty alphabet,
`string_to_onehot` maps every input label to the index the claim describes:
non-strings to the sentinel index, alphabet members to their positional
index, case-swapped members to the swapped form's index, everything else to
the sentinel index — the sentinel's own position when the sentinel is in the
alphabet, one past the last position otherwise. -/
theorem string_to_onehot_claim (alphabet : List (Option String))
    (labels : List PyLabel) (hne : alphabet ≠ []) (hnd : alphabet.Nodup) :
    string_to_onehot labels alphabet true =
      labels.map fun x => some (claimIndex alphabet x) := by
  unfold string_to_onehot
  have hE : alphabet.isEmpty = false := by
    cases alphabet with
    | nil => exact absurd rfl hne
    | cons c rest => rfl
  rw [hE]
  simp only [Bool.false_eq_true, if_false]
  apply List.map_congr_left
  intro x _
  cases x with
  | notStr =>
    simp only [resolveLabel, claimIndex]
    exact dictGet_sentinel alphabet hnd
  | s s =>
    simp only [resolveLabel, claimIndex]
    by_cases h1 : some s ∈ alphabet
    · rw [if_pos h1, if_pos h1]
      exact dictGet_char_to_int_mem alphabet true (some s) hnd h1
    · rw [if_neg h1, if_neg h1]
      by_cases h2 : some (swapcase s) ∈ alphabet
      · rw [if_pos h2, if_pos h2]
        exact dictGet_char_to_int_mem alphabet true (some (swapcase s)) hnd h2
      · rw [if_neg h2, if_neg h2]
        exact dictGet_sentinel alphabet hnd

theorem C8_witness :
    string_to_onehot [PyLabel.s "c", PyLabel.s "A", PyLabel.notStr,
      PyLabel.s "@"] ALPHABET true = [some 4, some 0, some 41, some 41] :=
  (string_to_onehot_claim ALPHABET
    [PyLabel.s "c", PyLabel.s "A", PyLabel.notStr, PyLabel.s "@"]
    (by decide) (by decide)).trans (by decide)

/-! ## Claim theorems: balanced extraction (C9) -/

theorem processChar_apply (N_max : ℕ) (tracked : List Char)
    (dist : Char → ℕ) (x c : Char) :
    processChar N_max tracked dist x c =
      if x = c ∧ c ∈ tracked ∧ dist c < N_max then dist c + 1 else dist c := by
  unfold processChar
  by_cases hx : x ∈ tracked ∧ dist x < N_max
  · rw [if_pos hx]
    by_cases e : c = x
    · subst e
      rw [if_pos rfl, if_pos ⟨rfl, hx⟩]
    · rw [if_neg e, if_neg (fun h => e h.1.symm)]
  · rw [if_neg hx]
    by_cases e : x = c
    · subst e
      rw [if_neg (fun h => hx ⟨h.2.1, h.2.2⟩)]
    · rw [if_neg (fun h => e h.1)]

theorem processRecord_count (N_max : ℕ) (tracked : List Char)
    (r : List Char) :
    ∀ (dist : Char → ℕ) (c : Char), c ∈ tracked → dist c ≤ N_max →
      processRecord N_max tracked dist r c =
        min N_max (dist c + r.count c) := by
  induction r with
  | nil =>
    intro d c hc hle
    simp only [processRecord, List.foldl_nil, List.count_nil]
    omega
  | cons x rs ih =>
    intro d c hc hle
    simp only [processRecord, List.foldl_cons] at ih ⊢
    rcases eq_or_ne x c with rfl | hne
    · by_cases hlt : d x < N_max
      · rw [ih (processChar N_max tracked d x) x hc
          (by rw [processChar_apply]; rw [if_pos ⟨rfl, hc, hlt⟩]; omega)]
        rw [processChar_apply, if_pos ⟨rfl, hc, hlt⟩, List.count_cons_self]
        omega
      · rw [ih (processChar N_max tracked d x) x hc
          (by rw [processChar_apply]; rw [if_neg (fun h => hlt h.2.2)]; exact hle)]
        rw [processChar_apply, if_neg (fun h => hlt h.2.2), List.count_cons_self]
        omega
    · have hd : processChar N_max tracked d x c = d c := by
        rw [processChar_apply, if_neg (fun h => hne h.1)]
      rw [ih (processChar N_max tracked d x) c hc (by rw [hd]; exact hle),
        hd, List.count_cons_of_ne (fun h => hne h.symm)]

theorem genBalanced_count (N_max : ℕ) (tracked : List Char)
    (corpus : List (List Char)) :
    ∀ (dist : Char → ℕ) (c : Char), c ∈ tracked → dist c ≤ N_max →
      genBalancedCharDataset N_max tracked corpus dist c =
        min N_max (dist c + countJoin c corpus) := by
  induction corpus with
  | nil =>
    intro d c hc hle
    simp only [genBalancedCharDataset, countJoin, List.map_nil, List.sum_nil]
    omega
  | cons r rest ih =>
    intro d c hc hle
    simp only [genBalancedCharDataset]
    have hcj : countJoin c (r :: rest) = r.count c + countJoin c rest := by
      simp [countJoin]
    by_cases hall : tracked.all (fun c => decide (N_max ≤ d c)) = true
    · rw [if_pos hall]
      have hge : N_max ≤ d c := by
        have h := List.all_eq_true.mp hall c hc
        exact of_decide_eq_true h
      rw [hcj]
      omega
    · rw [if_neg hall,
        ih (processRecord N_max tracked d r) c hc
          (by rw [processRecord_count N_max tracked r d c hc hle]; omega),
        processRecord_count N_max tracked r d c hc hle, hcj]
      omega

/-- C9: the balanced-extraction loop walks a finite random sample of the
corpus, so in the embedding it is a structurally terminating fold; starting
from the all-zero distribution, when every tracked class has at least
`N_max` occurrences in the corpus the final distribution maps every tracked
class to exactly `N_max`, and from any distribution capped by `N_max` no
tracked class's count ever exceeds `N_max`. -/
theorem genBalancedCharDataset_balanced (N_max : ℕ) (tracked : List Char)
    (corpus : List (List Char))
    (h : ∀ c ∈ tracked, N_max ≤ countJoin c corpus) :
    (∀ c ∈ tracked,
      genBalancedCharDataset N_max tracked corpus (fun _ => 0) c = N_max) ∧
    (∀ dist : Char → ℕ, (∀ c ∈ tracked, dist c ≤ N_max) →
      ∀ c ∈ tracked,
        genBalancedCharDataset N_max tracked corpus dist c ≤ N_max) := by
  constructor
  · intro c hc
    rw [genBalanced_count N_max tracked corpus (fun _ => 0) c hc
      (Nat.zero_le _)]
    have := h c hc
    omega
  · intro d hd c hc
    rw [genBalanced_count N_max tracked corpus d c hc (hd c hc)]
    omega

theorem C9_witness :
    genBalancedCharDataset 2 ['A', 'b'] [['A', 'b', 'A'], ['b', 'x', 'A']]
      (fun _ => 0) 'A' = 2 :=
  (genBalancedCharDataset_balanced 2 ['A', 'b']
    [['A', 'b', 'A'], ['b', 'x', 'A']] (by decide)).1 'A' (by decide)
